import Mathlib

/-!
Verification of the CSV historical-results extraction engine
(src/csv_historical_results.js and the year-resolution step of
src/main.js) via a shallow embedding in Lean.

JavaScript numbers are modelled as Int where the source only ever
produces integers (parseInt) and as JsRat, an explicit decimal
fraction, where the source produces fractions (parseFloat on decimal
strings); JsRat.toRat gives its rational value.  The exponent form
accepted by the host parseFloat (for example 1e3) is not modelled; no
behaviour verified here depends on it.  JavaScript strings are Lean
Strings; nullable values are Options.
-/

namespace CbcHistoric

/-- Whitespace class used by the host trim / regex \s (ASCII part). -/
def jsIsSpace (c : Char) : Bool :=
  c = ' ' || c = '\t' || c = '\n' || c = '\r' || c = '\x0b' || c = '\x0c'

/-- Model of String.prototype.trim. -/
def jsTrim (s : String) : String :=
  ⟨((s.data.dropWhile jsIsSpace).reverse.dropWhile jsIsSpace).reverse⟩

/-- Collapse every maximal run of whitespace to a single space
(model of replace with pattern \s+ and replacement a space). -/
def collapseWsGo : Bool → List Char → List Char
  | _, [] => []
  | inRun, c :: cs =>
    if jsIsSpace c then
      if inRun then collapseWsGo true cs else ' ' :: collapseWsGo true cs
    else c :: collapseWsGo false cs

/-- The norm helper of parseHistoricalResultsByCountCsv:
collapse whitespace runs, then trim. -/
def jsNorm (s : String) : String :=
  jsTrim ⟨collapseWsGo false s.data⟩

/-- Model of String.prototype.toLowerCase (ASCII). -/
def lowerStr (s : String) : String :=
  ⟨s.data.map Char.toLower⟩

/-- Decide whether pat is a leading segment of cs. -/
def startsWithChars : List Char → List Char → Bool
  | [], _ => true
  | _ :: _, [] => false
  | a :: as, b :: bs => a = b && startsWithChars as bs

/-- Decide whether pat occurs as a contiguous segment of the list. -/
def containsSubChars (pat : List Char) : List Char → Bool
  | [] => pat.isEmpty
  | c :: cs => startsWithChars pat (c :: cs) || containsSubChars pat cs

/-- Model of String.prototype.includes. -/
def containsSub (s pat : String) : Bool :=
  containsSubChars pat.data s.data

/-- Model of String.prototype.startsWith. -/
def jsStartsWith (s pat : String) : Bool :=
  startsWithChars pat.data s.data

/-- An unnormalized fraction: the value num / den.  The extraction
engine only ever stores such numbers or tests them against null, so
no arithmetic on them is needed and structural equality suffices to
read results back. -/
structure JsRat where
  num : Int
  den : Nat
deriving Repr, DecidableEq

/-- Rational value of a JsRat. -/
def JsRat.toRat (x : JsRat) : Rat :=
  (x.num : Rat) / (x.den : Rat)

/-- Split on a separator predicate, keeping empty segments, as the
host split does.  (The library split on String is not used because
its recursion is not kernel-reducible.) -/
def splitCharsGo (p : Char → Bool) (acc : List Char) : List Char → List String
  | [] => [⟨acc.reverse⟩]
  | c :: cs => if p c then ⟨acc.reverse⟩ :: splitCharsGo p [] cs else splitCharsGo p (c :: acc) cs

/-- Model of String.prototype.split with a single-character separator. -/
def splitStr (s : String) (p : Char → Bool) : List String :=
  splitCharsGo p [] s.data

/-- Numeric value of a list of decimal digits. -/
def digitsToNat (ds : List Char) : Nat :=
  ds.foldl (fun a c => a * 10 + (c.toNat - 48)) 0

/-- Model of the host parseInt with radix 10: skip whitespace, optional
sign, then the maximal run of leading digits; no digits gives NaN,
modelled as none. -/
def parseIntJS (s : String) : Option Int :=
  let cs := s.data.dropWhile jsIsSpace
  match cs with
  | '-' :: r =>
    let ds := r.takeWhile Char.isDigit
    if ds.isEmpty then none else some (-(digitsToNat ds : Int))
  | '+' :: r =>
    let ds := r.takeWhile Char.isDigit
    if ds.isEmpty then none else some ((digitsToNat ds : Int))
  | r =>
    let ds := r.takeWhile Char.isDigit
    if ds.isEmpty then none else some ((digitsToNat ds : Int))

/-- Model of the host parseFloat on its decimal fragment: skip
whitespace, optional sign, digits with an optional fractional part.
The exponent form is not modelled (see the file comment). -/
def parseFloatJS (s : String) : Option JsRat :=
  let cs := s.data.dropWhile jsIsSpace
  let sgn : Int := match cs with | '-' :: _ => -1 | _ => 1
  let r : List Char := match cs with
    | '-' :: r => r
    | '+' :: r => r
    | r => r
  let ip := r.takeWhile Char.isDigit
  match r.drop ip.length with
  | '.' :: r3 =>
    let fp := r3.takeWhile Char.isDigit
    if ip.isEmpty && fp.isEmpty then none
    else some
      { num := sgn * ((digitsToNat ip * 10 ^ fp.length + digitsToNat fp : Nat) : Int)
        den := 10 ^ fp.length }
  | _ => if ip.isEmpty then none else some { num := sgn * (digitsToNat ip : Int), den := 1 }

/-- Digits followed by an optional dot-and-digits tail, nothing else. -/
def digitsThenOptFrac (cs : List Char) : Bool :=
  let ds := cs.takeWhile Char.isDigit
  if ds.isEmpty then false
  else
    match cs.drop ds.length with
    | [] => true
    | '.' :: r => !r.isEmpty && r.all Char.isDigit
    | _ => false

/-- Source isNumericLike: trimmed text matching an anchored optional
minus sign, digits, optional single decimal part. -/
def isNumericLike (s : String) : Bool :=
  match (jsTrim s).data with
  | [] => false
  | '-' :: r => digitsThenOptFrac r
  | r => digitsThenOptFrac r

/-- Value of an integer digit run together with an optional fractional
continuation, as produced by the temperature regex. -/
def numWithFrac (ip rest : List Char) : JsRat :=
  match rest with
  | '.' :: r3 =>
    let fp := r3.takeWhile Char.isDigit
    if fp.isEmpty then { num := (digitsToNat ip : Int), den := 1 }
    else
      { num := ((digitsToNat ip * 10 ^ fp.length + digitsToNat fp : Nat) : Int)
        den := 10 ^ fp.length }
  | _ => { num := (digitsToNat ip : Int), den := 1 }

/-- Negation of a JsRat. -/
def JsRat.neg (x : JsRat) : JsRat :=
  { num := -x.num, den := x.den }

/-- Try the signed-decimal pattern at the head of the list. -/
def matchSignedNumAt (cs : List Char) : Option JsRat :=
  match cs with
  | '-' :: r =>
    let ip := r.takeWhile Char.isDigit
    if ip.isEmpty then none else some (JsRat.neg (numWithFrac ip (r.drop ip.length)))
  | r =>
    let ip := r.takeWhile Char.isDigit
    if ip.isEmpty then none else some (numWithFrac ip (r.drop ip.length))

/-- Leftmost-match search: try the pattern at every suffix, leftmost
position first, as an unanchored regex search does. -/
def searchPat {α : Type} (f : List Char → Option α) : List Char → Option α
  | [] => f []
  | c :: cs =>
    match f (c :: cs) with
    | some v => some v
    | none => searchPat f cs

/-- Source parseTempFString: first embedded signed decimal found
anywhere in the trimmed text, null when there is none. -/
def parseTempFString (s : String) : Option JsRat :=
  searchPat matchSignedNumAt (jsTrim s).data

/-- Source parseMaybeInt. -/
def parseMaybeInt (s : String) : Option Int :=
  let t := jsTrim s
  if t = "" then none else parseIntJS t

/-- Source parseMaybeFloat. -/
def parseMaybeFloat (s : String) : Option JsRat :=
  let t := jsTrim s
  if t = "" then none else parseFloatJS t

/-- Source parseLatLong: split on a slash, each side parsed as a
float; a missing slash gives the null pair. -/
def parseLatLong (s : String) : Option JsRat × Option JsRat :=
  let t := jsTrim s
  if t = "" || !containsSub t "/" then (none, none)
  else
    let parts := splitStr t (fun c => c = '/')
    (parseFloatJS (jsTrim (parts.getD 0 "")), parseFloatJS (jsTrim (parts.getD 1 "")))

/-- First pass of normalizeNewlines: CRLF becomes LF. -/
def replCRLF : List Char → List Char
  | '\r' :: '\n' :: cs => '\n' :: replCRLF cs
  | c :: cs => c :: replCRLF cs
  | [] => []

/-- Second pass of normalizeNewlines: remaining CR becomes LF. -/
def replCR : List Char → List Char
  | '\r' :: cs => '\n' :: replCR cs
  | c :: cs => c :: replCR cs
  | [] => []

/-- Source normalizeNewlines. -/
def normalizeNewlines (s : String) : String :=
  ⟨replCR (replCRLF s.data)⟩

/-- Pop trailing fields that trim to the empty string (the while loop
inside pushRow). -/
def dropTrailingWs (row : List String) : List String :=
  ((row.reverse.dropWhile (fun f => jsTrim f = "")).reverse)

/-- Source pushRow: trim trailing empty fields, drop the row when
nothing remains, otherwise append it. -/
def pushRowF (rows : List (List String)) (row : List String) : List (List String) :=
  let t := dropTrailingWs row
  if t.isEmpty then rows else rows ++ [t]

/-- Error text thrown on the column cap. -/
def colsMsg (mc : Nat) : String :=
  "CSV has too many columns (>" ++ toString mc ++ ")."

/-- Error text thrown on the row cap. -/
def rowsMsg (mr : Nat) : String :=
  "CSV has too many rows (>" ++ toString mr ++ ")."

/-- The character loop of parseCsvText: state is the remaining input,
the in-quotes flag, the accumulated rows, the fields of the current
row and the current field.  Cap checks happen exactly where the source
performs them: after a field push caused by a comma, and after a row
push caused by a newline. -/
def lexGo (mr mc : Nat) : List Char → Bool → List (List String) → List String → String →
    Except String (List (List String))
  | [], _, rows, row, field => Except.ok (pushRowF rows (row ++ [field]))
  | c :: cs, true, rows, row, field =>
    if c = '"' then
      match cs with
      | c2 :: cs2 =>
        if c2 = '"' then lexGo mr mc cs2 true rows row (field.push '"')
        else lexGo mr mc (c2 :: cs2) false rows row field
      | [] => Except.ok (pushRowF rows (row ++ [field]))
    else lexGo mr mc cs true rows row (field.push c)
  | c :: cs, false, rows, row, field =>
    if c = '"' then lexGo mr mc cs true rows row field
    else if c = ',' then
      let row2 := row ++ [field]
      if row2.length > mc then Except.error (colsMsg mc)
      else lexGo mr mc cs false rows row2 ""
    else if c = '\n' then
      let rows2 := pushRowF rows (row ++ [field])
      if rows2.length > mr then Except.error (rowsMsg mr)
      else lexGo mr mc cs false rows2 [] ""
    else lexGo mr mc cs false rows row (field.push c)

/-- Source parseCsvText. -/
def parseCsvText (text : String) (mr mc : Nat) : Except String (List (List String)) :=
  lexGo mr mc (normalizeNewlines text).data false [] [] ""

/-- Reference lexer used to state the cap characterization: the same
character machine without caps, without trailing-field trimming and
without empty-row dropping; it returns the raw rows, the last being
the one open at end of input. -/
def lexRawGo : List Char → Bool → List String → String → List (List String)
  | [], _, row, field => [row ++ [field]]
  | c :: cs, true, row, field =>
    if c = '"' then
      match cs with
      | c2 :: cs2 =>
        if c2 = '"' then lexRawGo cs2 true row (field.push '"')
        else lexRawGo (c2 :: cs2) false row field
      | [] => [row ++ [field]]
    else lexRawGo cs true row (field.push c)
  | c :: cs, false, row, field =>
    if c = '"' then lexRawGo cs true row field
    else if c = ',' then lexRawGo cs false (row ++ [field]) ""
    else if c = '\n' then (row ++ [field]) :: lexRawGo cs false [] ""
    else lexRawGo cs false row (field.push c)

/-- Raw (pre-trim) rows of the input. -/
def lexRaw (text : String) : List (List String) :=
  lexRawGo (normalizeNewlines text).data false [] ""

/-- Trim a raw row and keep it only when something remains. -/
def trimKeep (row : List String) : Option (List String) :=
  let t := dropTrailingWs row
  if t.isEmpty then none else some t

/-- Rows retained from a raw row list. -/
def keptRows (l : List (List String)) : List (List String) :=
  l.filterMap trimKeep

/-- Number of retained rows. -/
def retainedCount (l : List (List String)) : Nat :=
  (keptRows l).length

/-- Leading pattern of a composite header cell: optional whitespace, a
4-digit year starting 19 or 20, optional whitespace, then a bracketed
digit run.  Returns the year and the index. -/
def matchYearIdx (cs : List Char) : Option (Nat × Nat) :=
  match cs.dropWhile jsIsSpace with
  | d1 :: d2 :: d3 :: d4 :: rest =>
    if ((d1 = '1' && d2 = '9') || (d1 = '2' && d2 = '0')) && d3.isDigit && d4.isDigit then
      match rest.dropWhile jsIsSpace with
      | '[' :: r3 =>
        let ds := r3.takeWhile Char.isDigit
        if ds.isEmpty then none
        else
          match r3.drop ds.length with
          | ']' :: _ => some (digitsToNat [d1, d2, d3, d4], digitsToNat ds)
          | _ => none
      | _ => none
    else none
  | _ => none

/-- Match a literal character list, returning the remainder. -/
def matchLit : List Char → List Char → Option (List Char)
  | [], cs => some cs
  | _ :: _, [] => none
  | a :: as, b :: bs => if a = b then matchLit as bs else none

/-- One or two digits (greedy, with backtracking) followed by a
continuation; mirrors a regex digit-run bounded at two. -/
def dayThen (k : List Char → Option (List Char)) : List Char → Option (List Char)
  | [] => none
  | [a] =>
    if a.isDigit then
      match k [] with
      | some t => some (a :: t)
      | none => none
    else none
  | a :: b :: rest =>
    if a.isDigit then
      if b.isDigit then
        match k rest with
        | some t => some (a :: b :: t)
        | none =>
          match k (b :: rest) with
          | some t => some (a :: t)
          | none => none
      else
        match k (b :: rest) with
        | some t => some (a :: t)
        | none => none
    else none

/-- A slash followed by exactly four digits. -/
def slashYear4 : List Char → Option (List Char)
  | '/' :: a :: b :: c :: d :: _ =>
    if a.isDigit && b.isDigit && c.isDigit && d.isDigit then some ['/', a, b, c, d]
    else none
  | _ => none

/-- The date group: one or two digits, slash, one or two digits,
slash, four digits; returns the matched characters. -/
def mdyAt (cs : List Char) : Option (List Char) :=
  dayThen
    (fun r1 =>
      match r1 with
      | '/' :: r2 =>
        match dayThen slashYear4 r2 with
        | some t => some ('/' :: t)
        | none => none
      | _ => none)
    cs

/-- The Count Date label followed by a date, tried at one position. -/
def countDatePat (cs : List Char) : Option String :=
  match matchLit ("Count Date:".data) cs with
  | some r =>
    match mdyAt (r.dropWhile jsIsSpace) with
    | some cap => some ⟨cap⟩
    | none => none
  | none => none

/-- The hash-Participants label followed by digits, at one position. -/
def participantsPat (cs : List Char) : Option Int :=
  match cs with
  | '#' :: r1 =>
    match matchLit ("Participants:".data) (r1.dropWhile jsIsSpace) with
    | some r2 =>
      let ds := (r2.dropWhile jsIsSpace).takeWhile Char.isDigit
      if ds.isEmpty then none else some ((digitsToNat ds : Int))
    | none => none
  | _ => none

/-- The hash-Species-Reported label followed by digits, at one position. -/
def speciesRepPat (cs : List Char) : Option Int :=
  match cs with
  | '#' :: r1 =>
    match matchLit ("Species Reported:".data) (r1.dropWhile jsIsSpace) with
    | some r2 =>
      let ds := (r2.dropWhile jsIsSpace).takeWhile Char.isDigit
      if ds.isEmpty then none else some ((digitsToNat ds : Int))
    | none => none
  | _ => none

/-- The Total Hrs label followed by a decimal, at one position. -/
def totalHrsPat (cs : List Char) : Option JsRat :=
  match matchLit ("Total Hrs.:".data) cs with
  | some r =>
    let r1 := r.dropWhile jsIsSpace
    let ip := r1.takeWhile Char.isDigit
    if ip.isEmpty then none else some (numWithFrac ip (r1.drop ip.length))
  | none => none

/-- Result of parsing one composite header cell.  The Year and
CountIndex fields keep the nullable type the source gives them (the
object literal guards them with a finiteness check), although the
parser only ever builds them from matched digits. -/
structure YearHeader where
  Year : Option Int
  CountIndex : Option Int
  CountDate : Option String
  NumParticipants : Option Int
  NumSpeciesReported : Option Int
  TotalHrs : Option JsRat
deriving Repr, DecidableEq

/-- Source parseYearHeaderCell: the leading year-and-index pattern is
required on the first line; the labelled sub-fields are searched for
independently in the whole cell. -/
def parseYearHeaderCell (cell : String) : Option YearHeader :=
  let s := normalizeNewlines cell
  let head := (splitStr s (fun c => c = '\n')).headD ""
  match matchYearIdx head.data with
  | none => none
  | some (yr, idx) =>
    some
      { Year := some ((yr : Int))
        CountIndex := some ((idx : Int))
        CountDate := searchPat countDatePat s.data
        NumParticipants := searchPat participantsPat s.data
        NumSpeciesReported := searchPat speciesRepPat s.data
        TotalHrs := searchPat totalHrsPat s.data }

/-- Site metadata record (countInfo).  CountId is initialized to null
by the source and carried through unchanged. -/
structure CountInfo where
  CountName : Option String
  CountCode : Option String
  CountId : Option Int
  Lat : Option JsRat
  Lon : Option JsRat
  CompilerFirstName : Option String
  CompilerLastName : Option String
  CompilerName : Option String
  CompilerEmail : Option String
deriving Repr, DecidableEq

/-- The all-null initial countInfo. -/
def initCountInfo : CountInfo :=
  { CountName := none, CountCode := none, CountId := none, Lat := none, Lon := none
    CompilerFirstName := none, CompilerLastName := none
    CompilerName := none, CompilerEmail := none }

/-- Weather record: one row of the weather section. -/
structure WeatherRecord where
  CountIndex : Int
  LowTempF : Option JsRat
  HighTempF : Option JsRat
  AMClouds : String
  PMClouds : String
  AMRain : String
  PMRain : String
  AMSnow : String
  PMSnow : String
deriving Repr, DecidableEq

/-- Participation and effort record. -/
structure PERecord where
  CountIndex : Int
  CountDate : Option String
  Year : Option Int
  NumParticipants : Option Int
  NumHours : Option JsRat
  NumSpeciesReported : Option Int
deriving Repr, DecidableEq

/-- Per-index metadata derived from species-section headers. -/
structure MetaRecord where
  CountIndex : Int
  Year : Int
  CountDate : Option String
deriving Repr, DecidableEq

/-- One row of the pivoted species table: the species name and the
year-keyed counts present for it. -/
structure SpeciesRow where
  Species : String
  counts : List (Int × Int)
deriving Repr, DecidableEq

/-- The aggregate extraction result. -/
structure ExtractionResult where
  countInfo : CountInfo
  meta : List MetaRecord
  participantsEffort : List PERecord
  weatherRaw : List WeatherRecord
  speciesTable : List SpeciesRow
  years : List Int
deriving Repr, DecidableEq

/-- Cell access with the undefined-to-empty-string coercion the
source applies at use sites. -/
def cellAt (r : List String) (j : Nat) : String :=
  r.getD j ""

/-- The firstNonEmptyAfter helper of the compiler scan. -/
def firstNonEmptyAfter (r : List String) (idx : Nat) : Option String :=
  match (r.drop (idx + 1)).find? (fun c => !(jsNorm c = "")) with
  | some c => some (jsNorm c)
  | none => none

/-- JavaScript truthiness of a nullable string. -/
def strTruthy : Option String → Bool
  | none => false
  | some s => !(s = "")

/-- Update a nullable string field as the pattern value-or-keep does:
take the new value when it is non-empty, otherwise keep the old. -/
def orKeep (newVal : String) (old : Option String) : Option String :=
  if newVal = "" then old else some newVal

/-- Positions of the recognized compiler header tokens in a row (the
headerIndexes map); a later occurrence of the same token wins, as a
map insertion does. -/
structure HeaderIdx where
  first : Option Nat
  last : Option Nat
  email : Option Nat
  name : Option Nat
deriving Repr, DecidableEq

/-- Scan one row for compiler header tokens. -/
def headerIdxOfRow (r : List String) : HeaderIdx :=
  (List.range r.length).foldl
    (fun h j =>
      let key := lowerStr (jsNorm (cellAt r j))
      let h := if key = "compilerfirstname" then { h with first := some j } else h
      let h := if key = "compilerlastname" then { h with last := some j } else h
      let h := if key = "compileremail" || key = "email" then { h with email := some j } else h
      if key = "compilername" || key = "compiler" then { h with name := some j } else h)
    { first := none, last := none, email := none, name := none }

/-- Inline value of a label-colon-value cell: everything after the
first colon, trimmed. -/
def afterColon (cell : String) : String :=
  jsTrim (String.intercalate ":" ((splitStr cell (fun c => c = ':')).drop 1))

/-- The per-cell branch of the compiler scan: inline email and
compiler-name patterns. -/
def compilerCellStep (r : List String) (ci : CountInfo) (j : Nat) : CountInfo :=
  let cell := jsNorm (cellAt r j)
  if cell = "" then ci
  else
    let lower := lowerStr cell
    if containsSub lower "compiler email" || (containsSub lower "compiler" && containsSub lower "email") then
      let inline := afterColon cell
      let v : Option String := if !(inline = "") then some inline else firstNonEmptyAfter r j
      match v with
      | some s => if s = "" then ci else { ci with CompilerEmail := some s }
      | none => ci
    else if jsStartsWith lower "compiler" || jsStartsWith lower "current compiler" then
      let inline := afterColon cell
      let v : Option String := if !(inline = "") then some inline else firstNonEmptyAfter r j
      match v with
      | some s => if s = "" then ci else { ci with CompilerName := some s }
      | none => ci
    else ci

/-- One iteration of the compiler-metadata scan: the header-token
block reading values from the following row, then the per-cell
inline-label block. -/
def compilerRowStep (rows : List (List String)) (ci : CountInfo) (i : Nat) : CountInfo :=
  let r := rows.getD i []
  if r.isEmpty then ci
  else
    let h := headerIdxOfRow r
    let v := rows.getD (i + 1) []
    let ci :=
      if h.first.isSome || h.last.isSome || h.email.isSome || h.name.isSome then
        let ci := match h.first with
          | some j => { ci with CompilerFirstName := orKeep (jsNorm (cellAt v j)) ci.CompilerFirstName }
          | none => ci
        let ci := match h.last with
          | some j => { ci with CompilerLastName := orKeep (jsNorm (cellAt v j)) ci.CompilerLastName }
          | none => ci
        let ci := match h.email with
          | some j => { ci with CompilerEmail := orKeep (jsNorm (cellAt v j)) ci.CompilerEmail }
          | none => ci
        match h.name with
          | some j => { ci with CompilerName := orKeep (jsNorm (cellAt v j)) ci.CompilerName }
          | none => ci
      else ci
    (List.range r.length).foldl (fun ci j => compilerCellStep r ci j) ci

/-- The compiler-metadata scan over the first eighty rows. -/
def compilerScan (rows : List (List String)) (ci : CountInfo) : CountInfo :=
  (List.range (min rows.length 80)).foldl (fun ci i => compilerRowStep rows ci i) ci

/-- The circle-identity scan over the first fifty rows. -/
def circleScan (rows : List (List String)) (ci : CountInfo) : CountInfo :=
  match (rows.take 50).findIdx? (fun r => cellAt r 0 = "CircleName" && cellAt r 1 = "Abbrev") with
  | none => ci
  | some i =>
    let v := rows.getD (i + 1) []
    let ll := parseLatLong (cellAt v 2)
    { ci with
      CountName := (if jsTrim (cellAt v 0) = "" then none else some (jsTrim (cellAt v 0)))
      CountCode := (if jsTrim (cellAt v 1) = "" then none else some (jsTrim (cellAt v 1)))
      Lat := ll.1
      Lon := ll.2 }

/-- Build a weather record from a data row with its parsed index. -/
def mkWeather (k : Int) (d : List String) : WeatherRecord :=
  { CountIndex := k
    LowTempF := parseTempFString (cellAt d 1)
    HighTempF := parseTempFString (cellAt d 2)
    AMClouds := cellAt d 3
    PMClouds := cellAt d 4
    AMRain := cellAt d 5
    PMRain := cellAt d 6
    AMSnow := cellAt d 7
    PMSnow := cellAt d 8 }

/-- Data-row loop of the weather section: stop on an empty row or a
row whose first cell is not numeric-looking; skip rows whose index
coerces to null or zero. -/
def weatherScanAux : List (List String) → List WeatherRecord
  | [] => []
  | d :: rest =>
    if d.isEmpty then []
    else if !isNumericLike (cellAt d 0) then []
    else
      match parseMaybeInt (cellAt d 0) with
      | none => weatherScanAux rest
      | some k => if k = 0 then weatherScanAux rest else mkWeather k d :: weatherScanAux rest

/-- The weather sentinel predicate. -/
def weatherSentinel (r : List String) : Bool :=
  cellAt r 0 = "CountYear3" && containsSub (lowerStr (cellAt r 1)) "lowtemp"

/-- The weather section of the grid. -/
def weatherOf (rows : List (List String)) : List WeatherRecord :=
  match rows.findIdx? weatherSentinel with
  | some i => weatherScanAux (rows.drop (i + 1))
  | none => []

/-- Build a participation-effort record from a data row. -/
def mkPE (k : Int) (d : List String) : PERecord :=
  { CountIndex := k
    CountDate := (if jsTrim (cellAt d 1) = "" then none else some (jsTrim (cellAt d 1)))
    Year := none
    NumParticipants := parseMaybeInt (cellAt d 2)
    NumHours := parseMaybeFloat (cellAt d 3)
    NumSpeciesReported := parseMaybeInt (cellAt d 4) }

/-- Data-row loop of the participation-effort section; same
termination and skip rules as the weather loop. -/
def peScanAux : List (List String) → List PERecord
  | [] => []
  | d :: rest =>
    if d.isEmpty then []
    else if !isNumericLike (cellAt d 0) then []
    else
      match parseMaybeInt (cellAt d 0) with
      | none => peScanAux rest
      | some k => if k = 0 then peScanAux rest else mkPE k d :: peScanAux rest

/-- The participation-effort section of the grid. -/
def peOf (rows : List (List String)) : List PERecord :=
  match rows.findIdx? (fun r => cellAt r 0 = "CountYear5") with
  | some i => peScanAux (rows.drop (i + 1))
  | none => []

/-- The in-place update the species scan applies to a matching
participation-effort record: each field is assigned from the header
only under the guard the source writes for it. -/
def updPE (yh : YearHeader) (r : PERecord) : PERecord :=
  { r with
    CountDate :=
      if !strTruthy r.CountDate && strTruthy yh.CountDate then yh.CountDate else r.CountDate
    NumParticipants :=
      if r.NumParticipants = none && !(yh.NumParticipants = none) then yh.NumParticipants
      else r.NumParticipants
    NumSpeciesReported :=
      if r.NumSpeciesReported = none && !(yh.NumSpeciesReported = none) then yh.NumSpeciesReported
      else r.NumSpeciesReported
    NumHours :=
      if r.NumHours = none && !(yh.TotalHrs = none) then yh.TotalHrs else r.NumHours }

/-- Find the first participation-effort record with the given index
and update it in place, as the find-and-mutate of the source does. -/
def fillPEFromHeader (ci : Int) (yh : YearHeader) : List PERecord → List PERecord
  | [] => []
  | r :: rest =>
    if r.CountIndex = ci then updPE yh r :: rest
    else r :: fillPEFromHeader ci yh rest

/-- Insertion-ordered map update: an existing key keeps its position
and gets the new value, a new key is appended. -/
def setAssoc : List (Int × Int) → Int → Int → List (Int × Int)
  | [], k, v => [(k, v)]
  | (a, b) :: rest, k, v =>
    if a = k then (k, v) :: rest else (a, b) :: setAssoc rest k v

/-- Lookup in an insertion-ordered map. -/
def lookupAssoc (m : List (Int × Int)) (k : Int) : Option Int :=
  (m.find? (fun p => p.1 = k)).map (fun p => p.2)

/-- Update the species-to-year-counts map for one data row. -/
def upsertSpecies : List (String × List (Int × Int)) → String → Int → Int →
    List (String × List (Int × Int))
  | [], sp, yr, cnt => [(sp, [(yr, cnt)])]
  | (s, m) :: rest, sp, yr, cnt =>
    if s = sp then (s, setAssoc m yr cnt) :: rest
    else (s, m) :: upsertSpecies rest sp yr cnt

/-- Accumulator of the species-section loop.  The metaSeen component
models the seen-index set; only membership is ever consulted. -/
structure SpeciesScanState where
  meta : List MetaRecord
  metaSeen : List Int
  pe : List PERecord
  counts : List (String × List (Int × Int))
deriving Repr, DecidableEq

/-- Data-row loop of the species section: stop at an empty row, skip
rows lacking a species cell or header cell or whose header does not
parse; otherwise record first-seen metadata, reconcile the matching
participation-effort record, and accumulate the count. -/
def speciesAux : List (List String) → SpeciesScanState → SpeciesScanState
  | [], st => st
  | d :: rest, st =>
    if d.isEmpty then st
    else
      let speciesRaw := jsTrim (cellAt d 0)
      let hdr := cellAt d 1
      if speciesRaw = "" || hdr = "" then speciesAux rest st
      else
        match parseYearHeaderCell hdr with
        | none => speciesAux rest st
        | some yh =>
          match yh.CountIndex, yh.Year with
          | some ci, some yr =>
            let st1 :=
              if st.metaSeen.contains ci then st
              else
                { st with
                  metaSeen := ci :: st.metaSeen
                  meta := st.meta ++
                    [{ CountIndex := ci, Year := yr,
                       CountDate :=
                         match yh.CountDate with
                         | some s => if s = "" then none else some s
                         | none => none }] }
            let st2 := { st1 with pe := fillPEFromHeader ci yh st1.pe }
            let species := jsTrim ((splitStr speciesRaw (fun c => c = '\n')).headD "")
            let countVal := (parseMaybeInt (cellAt d 2)).getD 0
            speciesAux rest { st2 with counts := upsertSpecies st2.counts species yr countVal }
          | _, _ => speciesAux rest st

/-- First-seen-order deduplication with an explicit seen accumulator. -/
def dedupFirstGo (seen : List Int) : List Int → List Int
  | [] => []
  | x :: xs =>
    if seen.contains x then dedupFirstGo seen xs
    else x :: dedupFirstGo (x :: seen) xs

/-- First-seen-order deduplication, as iterating a set insertion is. -/
def dedupFirst (l : List Int) : List Int :=
  dedupFirstGo [] l

/-- Source uniqueSortedYearsFromMeta: the set of years of the
metadata records, sorted ascending.  The finiteness filter of the
source is vacuous here because metadata years are built from matched
digits. -/
def uniqueSortedYearsFromMeta (meta : List MetaRecord) : List Int :=
  List.insertionSort (fun a b => a ≤ b) (dedupFirst (meta.map (fun r => r.Year)))

/-- Pivot the species-to-year-counts map into rows, one field per
observed year the species has. -/
def pivotSpecies (counts : List (String × List (Int × Int))) (years : List Int) :
    List SpeciesRow :=
  counts.map (fun p =>
    { Species := p.1
      counts := years.filterMap (fun y =>
        match lookupAssoc p.2 y with
        | some v => some (y, v)
        | none => none) })

/-- The species sentinel predicate. -/
def speciesSentinel (r : List String) : Bool :=
  cellAt r 0 = "COM_NAME" && cellAt r 1 = "CountYear"

/-- The state the species-section loop starts from: the
participation-effort records already collected, everything else empty. -/
def speciesStateInit (rows : List (List String)) : SpeciesScanState :=
  { meta := [], metaSeen := [], pe := peOf rows, counts := [] }

/-- Outcome of the species section: run the loop after the sentinel,
or keep the initial state when the sentinel is absent. -/
def speciesOut (rows : List (List String)) : SpeciesScanState :=
  match rows.findIdx? speciesSentinel with
  | some i => speciesAux (rows.drop (i + 1)) (speciesStateInit rows)
  | none => speciesStateInit rows

/-- Everything parseHistoricalResultsByCountCsv does after lexing. -/
def buildResult (rows : List (List String)) : ExtractionResult :=
  let sOut := speciesOut rows
  let years := uniqueSortedYearsFromMeta sOut.meta
  { countInfo := circleScan rows (compilerScan rows initCountInfo)
    meta := sOut.meta
    participantsEffort := sOut.pe
    weatherRaw := weatherOf rows
    speciesTable := pivotSpecies sOut.counts years
    years := years }

/-- Source parseHistoricalResultsByCountCsv: lex with the default
caps, then run every section scan and aggregate. -/
def parseHistoricalResultsByCountCsv (text : String) : Except String ExtractionResult :=
  match parseCsvText text 250000 200 with
  | Except.error e => Except.error e
  | Except.ok rows => Except.ok (buildResult rows)

/-- Source cleanText of the host module: strip CR, collapse
whitespace runs, trim. -/
def cleanText (s : String) : String :=
  jsTrim ⟨collapseWsGo false (s.data.filter (fun c => !(c = '\r')))⟩

/-- Word character as the regex word-boundary sees it. -/
def isWordChar (c : Char) : Bool :=
  c.isAlphanum || c = '_'

/-- Leftmost boundary-delimited 4-digit year token starting 19 or 20;
prev carries the character before the current position. -/
def yearTokenGo : Option Char → List Char → Option Int
  | prev, c1 :: c2 :: c3 :: c4 :: rest =>
    if ((c1 = '1' && c2 = '9') || (c1 = '2' && c2 = '0')) && c3.isDigit && c4.isDigit
        && (match prev with | some p => !isWordChar p | none => true)
        && (match rest.head? with | some n => !isWordChar n | none => true) then
      some ((digitsToNat [c1, c2, c3, c4] : Int))
    else yearTokenGo (some c1) (c2 :: c3 :: c4 :: rest)
  | _, _ => none

/-- Source yearFromCountDateString of the host module. -/
def yearFromCountDateString (s : String) : Option Int :=
  let t := cleanText s
  if t = "" then none else yearTokenGo none t.data

/-- Lookup in a map built from a pair list where a later duplicate
key overwrites an earlier one. -/
def lookupLastPair (l : List (Int × Int)) (k : Int) : Option Int :=
  (l.reverse.find? (fun p => p.1 = k)).map (fun p => p.2)

/-- The year-resolution step parseUploadedFile applies to the
participation-effort records: metadata year by index, else a year
token from the record date string, else the existing value. -/
def resolvePEYears (pe : List PERecord) (meta : List MetaRecord) : List PERecord :=
  let entries := meta.map (fun m => (m.CountIndex, m.Year))
  pe.map (fun r =>
    let metaYear := lookupLastPair entries r.CountIndex
    let yearFromDate : Option Int :=
      match r.CountDate with
      | some s => if s = "" then none else yearFromCountDateString s
      | none => none
    { r with
      Year :=
        match metaYear with
        | some y => some y
        | none =>
          match yearFromDate with
          | some y => some y
          | none => r.Year })

/-- Decidable equality for Except results, used to evaluate the
lexer and the extraction call on concrete inputs. -/
instance exceptDecEq {e a : Type} [DecidableEq e] [DecidableEq a] :
    DecidableEq (Except e a) := fun x y =>
  match x, y with
  | Except.error u, Except.error v =>
    if h : u = v then Decidable.isTrue (by rw [h])
    else Decidable.isFalse (by intro hh; cases hh; exact h rfl)
  | Except.ok u, Except.ok v =>
    if h : u = v then Decidable.isTrue (by rw [h])
    else Decidable.isFalse (by intro hh; cases hh; exact h rfl)
  | Except.error _, Except.ok _ => Decidable.isFalse (by intro hh; cases hh)
  | Except.ok _, Except.error _ => Decidable.isFalse (by intro hh; cases hh)

/-- The 201-column single-row input used against the cap claim. -/
def colsOverTxt : String := String.intercalate "," (List.replicate 201 "a")

/-- Record built from one weather data row, when its index is usable. -/
def weatherRowRec (d : List String) : Option WeatherRecord :=
  match parseMaybeInt (cellAt d 0) with
  | none => none
  | some k => if k = 0 then none else some (mkWeather k d)

/-- Record built from one participation-effort data row, when its
index is usable. -/
def peRowRec (d : List String) : Option PERecord :=
  match parseMaybeInt (cellAt d 0) with
  | none => none
  | some k => if k = 0 then none else some (mkPE k d)

/-- The fill-if-currently-null form of the reconciliation update. -/
def updPESpec (yh : YearHeader) (r : PERecord) : PERecord :=
  { r with
    CountDate :=
      if strTruthy r.CountDate then r.CountDate
      else if strTruthy yh.CountDate then yh.CountDate else r.CountDate
    NumParticipants :=
      if r.NumParticipants = none then yh.NumParticipants else r.NumParticipants
    NumSpeciesReported :=
      if r.NumSpeciesReported = none then yh.NumSpeciesReported else r.NumSpeciesReported
    NumHours :=
      if r.NumHours = none then yh.TotalHrs else r.NumHours }

/-- The year priority exactly as the claim words it: the year of the
metadata record whose index matches, else a year token from the
record's own date string, else the year already present. -/
def specPriorityYear (r : PERecord) (meta : List MetaRecord) : Option Int :=
  match meta.find? (fun m => m.CountIndex = r.CountIndex) with
  | some m => some m.Year
  | none =>
    match (match r.CountDate with | some s => yearFromCountDateString s | none => none) with
    | some y => some y
    | none => r.Year

theorem pushRowF_eq_kept (rows : List (List String)) (r : List String) :
    pushRowF rows r = rows ++ keptRows [r] := by
  simp only [pushRowF, keptRows, List.filterMap, trimKeep]
  split <;> simp_all

theorem keptRows_cons (a : List String) (l : List (List String)) :
    keptRows (a :: l) = keptRows [a] ++ keptRows l := by
  simp only [keptRows, List.filterMap_cons]
  cases h : trimKeep a <;> simp [Nat.add_comm]

theorem retainedCount_cons (a : List String) (l : List (List String)) :
    retainedCount (a :: l) = (keptRows [a]).length + retainedCount l := by
  simp only [retainedCount, keptRows, List.filterMap_cons]
  cases h : trimKeep a <;> simp [Nat.add_comm]

theorem pushRowF_len (rows : List (List String)) (r : List String) :
    (pushRowF rows r).length = rows.length + (keptRows [r]).length := by
  rw [pushRowF_eq_kept]; simp

theorem dropLastConsNe (a : List String) {l : List (List String)} (h : l ≠ []) :
    (a :: l).dropLast = a :: l.dropLast := by
  cases l with
  | nil => exact absurd rfl h
  | cons b t => simp

theorem raw_nil (b : Bool) (row : List String) (field : String) :
    lexRawGo [] b row field = [row ++ [field]] := by
  rw [lexRawGo.eq_def]

theorem raw_qq (cs2 : List Char) (row : List String) (field : String) :
    lexRawGo ('"' :: '"' :: cs2) true row field = lexRawGo cs2 true row (field.push '"') := by
  rw [lexRawGo.eq_def]; simp

theorem raw_qclose {c2 : Char} (hc : ¬c2 = '"') (cs2 : List Char) (row : List String)
    (field : String) :
    lexRawGo ('"' :: c2 :: cs2) true row field = lexRawGo (c2 :: cs2) false row field := by
  rw [lexRawGo.eq_def]; simp [hc]

theorem raw_qeof (row : List String) (field : String) :
    lexRawGo ['"'] true row field = [row ++ [field]] := by
  rw [lexRawGo.eq_def]; simp

theorem raw_qchar {c : Char} (hc : ¬c = '"') (cs : List Char) (row : List String)
    (field : String) :
    lexRawGo (c :: cs) true row field = lexRawGo cs true row (field.push c) := by
  rw [lexRawGo.eq_def]; simp [hc]

theorem raw_qopen (cs : List Char) (row : List String) (field : String) :
    lexRawGo ('"' :: cs) false row field = lexRawGo cs true row field := by
  rw [lexRawGo.eq_def]; simp

theorem raw_comma (cs : List Char) (row : List String) (field : String) :
    lexRawGo (',' :: cs) false row field = lexRawGo cs false (row ++ [field]) "" := by
  rw [lexRawGo.eq_def]; simp

theorem raw_nl (cs : List Char) (row : List String) (field : String) :
    lexRawGo ('\n' :: cs) false row field = (row ++ [field]) :: lexRawGo cs false [] "" := by
  rw [lexRawGo.eq_def]; simp

theorem raw_char {c : Char} (h1 : ¬c = '"') (h2 : ¬c = ',') (h3 : ¬c = '\n')
    (cs : List Char) (row : List String) (field : String) :
    lexRawGo (c :: cs) false row field = lexRawGo cs false row (field.push c) := by
  rw [lexRawGo.eq_def]; simp [h1, h2, h3]

theorem lexGo_nil (mr mc : Nat) (b : Bool) (rows : List (List String)) (row : List String)
    (field : String) :
    lexGo mr mc [] b rows row field = Except.ok (pushRowF rows (row ++ [field])) := by
  rw [lexGo.eq_def]

theorem lexGo_qq (mr mc : Nat) (cs2 : List Char) (rows : List (List String))
    (row : List String) (field : String) :
    lexGo mr mc ('"' :: '"' :: cs2) true rows row field
      = lexGo mr mc cs2 true rows row (field.push '"') := by
  rw [lexGo.eq_def]; simp

theorem lexGo_qclose (mr mc : Nat) {c2 : Char} (hc : ¬c2 = '"') (cs2 : List Char)
    (rows : List (List String)) (row : List String) (field : String) :
    lexGo mr mc ('"' :: c2 :: cs2) true rows row field
      = lexGo mr mc (c2 :: cs2) false rows row field := by
  rw [lexGo.eq_def]; simp [hc]

theorem lexGo_qeof (mr mc : Nat) (rows : List (List String)) (row : List String)
    (field : String) :
    lexGo mr mc ['"'] true rows row field = Except.ok (pushRowF rows (row ++ [field])) := by
  rw [lexGo.eq_def]; simp

theorem lexGo_qchar (mr mc : Nat) {c : Char} (hc : ¬c = '"') (cs : List Char)
    (rows : List (List String)) (row : List String) (field : String) :
    lexGo mr mc (c :: cs) true rows row field
      = lexGo mr mc cs true rows row (field.push c) := by
  rw [lexGo.eq_def]; simp [hc]

theorem lexGo_qopen (mr mc : Nat) (cs : List Char) (rows : List (List String))
    (row : List String) (field : String) :
    lexGo mr mc ('"' :: cs) false rows row field = lexGo mr mc cs true rows row field := by
  rw [lexGo.eq_def]; simp

theorem lexGo_comma_err (mr mc : Nat) {row : List String} {field : String}
    (h : (row ++ [field]).length > mc) (cs : List Char) (rows : List (List String)) :
    lexGo mr mc (',' :: cs) false rows row field = Except.error (colsMsg mc) := by
  have hstep : lexGo mr mc (',' :: cs) false rows row field
      = (if (row ++ [field]).length > mc then Except.error (colsMsg mc)
         else lexGo mr mc cs false rows (row ++ [field]) "") := rfl
  rw [hstep, if_pos h]

theorem lexGo_comma (mr mc : Nat) {row : List String} {field : String}
    (h : ¬(row ++ [field]).length > mc) (cs : List Char) (rows : List (List String)) :
    lexGo mr mc (',' :: cs) false rows row field
      = lexGo mr mc cs false rows (row ++ [field]) "" := by
  have hstep : lexGo mr mc (',' :: cs) false rows row field
      = (if (row ++ [field]).length > mc then Except.error (colsMsg mc)
         else lexGo mr mc cs false rows (row ++ [field]) "") := rfl
  rw [hstep, if_neg h]

theorem lexGo_nl_err (mr mc : Nat) {rows : List (List String)} {row : List String}
    {field : String} (h : (pushRowF rows (row ++ [field])).length > mr) (cs : List Char) :
    lexGo mr mc ('\n' :: cs) false rows row field = Except.error (rowsMsg mr) := by
  have hstep : lexGo mr mc ('\n' :: cs) false rows row field
      = (if (pushRowF rows (row ++ [field])).length > mr then Except.error (rowsMsg mr)
         else lexGo mr mc cs false (pushRowF rows (row ++ [field])) [] "") := rfl
  rw [hstep, if_pos h]

theorem lexGo_nl (mr mc : Nat) {rows : List (List String)} {row : List String}
    {field : String} (h : ¬(pushRowF rows (row ++ [field])).length > mr) (cs : List Char) :
    lexGo mr mc ('\n' :: cs) false rows row field
      = lexGo mr mc cs false (pushRowF rows (row ++ [field])) [] "" := by
  have hstep : lexGo mr mc ('\n' :: cs) false rows row field
      = (if (pushRowF rows (row ++ [field])).length > mr then Except.error (rowsMsg mr)
         else lexGo mr mc cs false (pushRowF rows (row ++ [field])) [] "") := rfl
  rw [hstep, if_neg h]

theorem lexGo_char (mr mc : Nat) {c : Char} (h1 : ¬c = '"') (h2 : ¬c = ',')
    (h3 : ¬c = '\n') (cs : List Char) (rows : List (List String)) (row : List String)
    (field : String) :
    lexGo mr mc (c :: cs) false rows row field
      = lexGo mr mc cs false rows row (field.push c) := by
  rw [lexGo.eq_def]; simp [h1, h2, h3]

theorem lexRawGo_head_ext : ∀ (cs : List Char) (b : Bool) (row : List String) (field : String),
    ∃ ext rest, lexRawGo cs b row field = (row ++ ext) :: rest ∧ ext ≠ [] := by
  intro cs b row field
  induction cs, b, row, field using lexRawGo.induct with
  | case1 b row field => exact ⟨[field], [], raw_nil b row field, by simp⟩
  | case2 row field cs2 ih =>
    obtain ⟨ext, rest, h, hne⟩ := ih
    exact ⟨ext, rest, (raw_qq cs2 row field).trans h, hne⟩
  | case3 row field c2 cs2 hc ih =>
    obtain ⟨ext, rest, h, hne⟩ := ih
    exact ⟨ext, rest, (raw_qclose hc cs2 row field).trans h, hne⟩
  | case4 row field => exact ⟨[field], [], raw_qeof row field, by simp⟩
  | case5 c cs row field hc ih =>
    obtain ⟨ext, rest, h, hne⟩ := ih
    exact ⟨ext, rest, (raw_qchar hc cs row field).trans h, hne⟩
  | case6 cs row field ih =>
    obtain ⟨ext, rest, h, hne⟩ := ih
    exact ⟨ext, rest, (raw_qopen cs row field).trans h, hne⟩
  | case7 cs row field hc ih =>
    obtain ⟨ext, rest, h, hne⟩ := ih
    refine ⟨[field] ++ ext, rest, ?_, by simp⟩
    rw [raw_comma, h]
    simp
  | case8 cs row field h1 h2 ih =>
    exact ⟨[field], lexRawGo cs false [] "", raw_nl cs row field, by simp⟩
  | case9 c cs row field h1 h2 h3 ih =>
    obtain ⟨ext, rest, h, hne⟩ := ih
    exact ⟨ext, rest, (raw_char h1 h2 h3 cs row field).trans h, hne⟩

theorem lexRawGo_ne_nil (cs : List Char) (b : Bool) (row : List String) (field : String) :
    lexRawGo cs b row field ≠ [] := by
  obtain ⟨ext, rest, h, _⟩ := lexRawGo_head_ext cs b row field
  rw [h]
  simp

theorem lexGo_ok (mr mc : Nat) :
    ∀ (cs : List Char) (b : Bool) (rows : List (List String)) (row : List String)
      (field : String),
    (∀ r ∈ lexRawGo cs b row field, r.length ≤ mc + 1) →
    rows.length + retainedCount (lexRawGo cs b row field).dropLast ≤ mr →
    lexGo mr mc cs b rows row field = Except.ok (rows ++ keptRows (lexRawGo cs b row field)) := by
  intro cs b rows row field
  induction cs, b, rows, row, field using lexGo.induct mr mc with
  | case1 b rows row field =>
    intro _ _
    rw [lexGo_nil, raw_nil, pushRowF_eq_kept]
  | case2 rows row field cs2 ih =>
    rw [raw_qq, lexGo_qq]
    exact ih
  | case3 rows row field c2 cs2 hc ih =>
    rw [raw_qclose hc, lexGo_qclose mr mc hc]
    exact ih
  | case4 rows row field =>
    intro _ _
    rw [lexGo_qeof, raw_qeof, pushRowF_eq_kept]
  | case5 c cs rows row field hc ih =>
    rw [raw_qchar hc, lexGo_qchar mr mc hc]
    exact ih
  | case6 cs rows row field ih =>
    rw [raw_qopen, lexGo_qopen]
    exact ih
  | case7 cs rows row field row2 hgt hq =>
    intro hA hB
    exfalso
    obtain ⟨ext, rest, hhe, hne⟩ := lexRawGo_head_ext cs false (row ++ [field]) ""
    have hmem : ((row ++ [field]) ++ ext) ∈ lexRawGo (',' :: cs) false row field := by
      rw [raw_comma, hhe]
      exact List.mem_cons_self _ _
    have hbound := hA _ hmem
    have hext : 1 ≤ ext.length := List.length_pos.mpr hne
    have hgt2 : (row ++ [field]).length > mc := hgt
    simp only [List.length_append, List.length_cons, List.length_nil] at hbound hgt2
    omega
  | case8 cs rows row field row2 hnlen hq ih =>
    rw [raw_comma]
    intro hA hB
    rw [lexGo_comma mr mc hnlen]
    exact ih hA hB
  | case9 cs rows row field rows2 hgt hq hc =>
    intro hA hB
    exfalso
    have hrest : lexRawGo cs false [] "" ≠ [] := lexRawGo_ne_nil cs false [] ""
    rw [raw_nl, dropLastConsNe _ hrest, retainedCount_cons] at hB
    have hgt2 : (pushRowF rows (row ++ [field])).length > mr := hgt
    rw [pushRowF_len] at hgt2
    omega
  | case10 cs rows row field rows2 hnlen hq hc ih =>
    intro hA hB
    rw [raw_nl] at hA hB ⊢
    have hrest : lexRawGo cs false [] "" ≠ [] := lexRawGo_ne_nil cs false [] ""
    rw [dropLastConsNe _ hrest, retainedCount_cons] at hB
    have hA2 : ∀ r ∈ lexRawGo cs false [] "", r.length ≤ mc + 1 := fun r hr =>
      hA r (List.mem_cons_of_mem _ hr)
    have hB2 : (pushRowF rows (row ++ [field])).length
        + retainedCount (lexRawGo cs false [] "").dropLast ≤ mr := by
      rw [pushRowF_len]
      omega
    have ih2 : lexGo mr mc cs false (pushRowF rows (row ++ [field])) [] ""
        = Except.ok ((pushRowF rows (row ++ [field]))
            ++ keptRows (lexRawGo cs false [] "")) := ih hA2 hB2
    rw [lexGo_nl mr mc hnlen, ih2, pushRowF_eq_kept,
      keptRows_cons (row ++ [field]) (lexRawGo cs false [] "")]
    simp
  | case11 c cs rows row field h1 h2 h3 ih =>
    rw [raw_char h1 h2 h3, lexGo_char mr mc h1 h2 h3]
    exact ih

theorem lexGo_err (mr mc : Nat) :
    ∀ (cs : List Char) (b : Bool) (rows : List (List String)) (row : List String)
      (field : String),
    row.length ≤ mc → rows.length ≤ mr →
    ¬((∀ r ∈ lexRawGo cs b row field, r.length ≤ mc + 1) ∧
      rows.length + retainedCount (lexRawGo cs b row field).dropLast ≤ mr) →
    ∃ e, lexGo mr mc cs b rows row field = Except.error e
      ∧ (e = colsMsg mc ∨ e = rowsMsg mr) := by
  intro cs b rows row field
  induction cs, b, rows, row, field using lexGo.induct mr mc with
  | case1 b rows row field =>
    intro hrow hrows hnot
    exfalso
    refine hnot ⟨?_, ?_⟩
    · intro r hr
      rw [raw_nil] at hr
      simp only [List.mem_singleton] at hr
      subst hr
      simp only [List.length_append, List.length_cons, List.length_nil]
      omega
    · rw [raw_nil]
      simp [retainedCount, keptRows]
      exact hrows
  | case2 rows row field cs2 ih =>
    rw [raw_qq, lexGo_qq]
    exact ih
  | case3 rows row field c2 cs2 hc ih =>
    rw [raw_qclose hc, lexGo_qclose mr mc hc]
    exact ih
  | case4 rows row field =>
    intro hrow hrows hnot
    exfalso
    refine hnot ⟨?_, ?_⟩
    · intro r hr
      rw [raw_qeof] at hr
      simp only [List.mem_singleton] at hr
      subst hr
      simp only [List.length_append, List.length_cons, List.length_nil]
      omega
    · rw [raw_qeof]
      simp [retainedCount, keptRows]
      exact hrows
  | case5 c cs rows row field hc ih =>
    rw [raw_qchar hc, lexGo_qchar mr mc hc]
    exact ih
  | case6 cs rows row field ih =>
    rw [raw_qopen, lexGo_qopen]
    exact ih
  | case7 cs rows row field row2 hgt hq =>
    intro _ _ _
    have hgt2 : (row ++ [field]).length > mc := hgt
    exact ⟨colsMsg mc, lexGo_comma_err mr mc hgt2 cs rows, Or.inl rfl⟩
  | case8 cs rows row field row2 hnlen hq ih =>
    intro hrow hrows hnot
    rw [raw_comma] at hnot
    have hnlen2 : ¬(row ++ [field]).length > mc := hnlen
    have hrow2 : (row ++ [field]).length ≤ mc := by omega
    rw [lexGo_comma mr mc hnlen2]
    exact ih hrow2 hrows hnot
  | case9 cs rows row field rows2 hgt hq hc =>
    intro _ _ _
    have hgt2 : (pushRowF rows (row ++ [field])).length > mr := hgt
    exact ⟨rowsMsg mr, lexGo_nl_err mr mc hgt2 cs, Or.inr rfl⟩
  | case10 cs rows row field rows2 hnlen hq hc ih =>
    intro hrow hrows hnot
    rw [raw_nl] at hnot
    have hnlen2 : ¬(pushRowF rows (row ++ [field])).length > mr := hnlen
    have hrows2 : (pushRowF rows (row ++ [field])).length ≤ mr := by omega
    have hrest : lexRawGo cs false [] "" ≠ [] := lexRawGo_ne_nil cs false [] ""
    have hnot2 : ¬((∀ r ∈ lexRawGo cs false [] "", r.length ≤ mc + 1) ∧
        (pushRowF rows (row ++ [field])).length
          + retainedCount (lexRawGo cs false [] "").dropLast ≤ mr) := by
      intro hand
      obtain ⟨hA2, hB2⟩ := hand
      refine hnot ⟨?_, ?_⟩
      · intro r hr
        rcases List.mem_cons.mp hr with hr | hr
        · subst hr
          simp only [List.length_append, List.length_cons, List.length_nil]
          omega
        · exact hA2 r hr
      · rw [dropLastConsNe _ hrest, retainedCount_cons]
        rw [pushRowF_len] at hB2
        omega
    have ih2 := ih (by simp) hrows2 hnot2
    obtain ⟨e, he, hor⟩ := ih2
    refine ⟨e, ?_, hor⟩
    rw [lexGo_nl mr mc hnlen2]
    exact he
  | case11 c cs rows row field h1 h2 h3 ih =>
    rw [raw_char h1 h2 h3, lexGo_char mr mc h1 h2 h3]
    exact ih

theorem dropWhileStr_idem (p : String → Bool) (l : List String) :
    (l.dropWhile p).dropWhile p = l.dropWhile p := by
  induction l with
  | nil => simp
  | cons a t ih =>
    by_cases h : p a
    · simp [List.dropWhile_cons, h, ih]
    · simp [List.dropWhile_cons, h]

theorem dropTrailingWs_idem (r : List String) :
    dropTrailingWs (dropTrailingWs r) = dropTrailingWs r := by
  unfold dropTrailingWs
  rw [List.reverse_reverse]
  rw [dropWhileStr_idem]

/-- On success the lexer returns exactly the trimmed retained raw rows. -/
theorem parseCsvText_ok_of_bounds (text : String) (mr mc : Nat)
    (hA : ∀ r ∈ lexRaw text, r.length ≤ mc + 1)
    (hB : retainedCount (lexRaw text).dropLast ≤ mr) :
    parseCsvText text mr mc = Except.ok (keptRows (lexRaw text)) := by
  have h := lexGo_ok mr mc (normalizeNewlines text).data false [] [] "" hA
    (by simpa using hB)
  simpa [parseCsvText, lexRaw] using h

theorem parseCsvText_err_of_bounds (text : String) (mr mc : Nat)
    (h : ¬((∀ r ∈ lexRaw text, r.length ≤ mc + 1)
        ∧ retainedCount (lexRaw text).dropLast ≤ mr)) :
    ∃ e, parseCsvText text mr mc = Except.error e
      ∧ (e = colsMsg mc ∨ e = rowsMsg mr) := by
  have h2 := lexGo_err mr mc (normalizeNewlines text).data false [] [] ""
    (by simp) (by simp) (by simpa [lexRaw] using h)
  simpa [parseCsvText, lexRaw] using h2

/-- Rows returned by the lexer are nonempty and already trimmed. -/
theorem parse_rows_shape (text : String) (mr mc : Nat) (rows : List (List String))
    (h : parseCsvText text mr mc = Except.ok rows) :
    ∀ r ∈ rows, dropTrailingWs r = r ∧ r ≠ [] := by
  by_cases hc : (∀ r ∈ lexRaw text, r.length ≤ mc + 1)
      ∧ retainedCount (lexRaw text).dropLast ≤ mr
  · have hok := parseCsvText_ok_of_bounds text mr mc hc.1 hc.2
    rw [h] at hok
    have hrows : rows = keptRows (lexRaw text) := Except.ok.inj hok
    subst hrows
    intro r hr
    obtain ⟨a, _, ha⟩ := List.mem_filterMap.mp hr
    unfold trimKeep at ha
    by_cases he : (dropTrailingWs a).isEmpty
    · simp [he] at ha
    · simp only [he, if_neg] at ha
      have hr2 : r = dropTrailingWs a := by
        simpa using ha.symm
      subst hr2
      refine ⟨dropTrailingWs_idem a, ?_⟩
      intro hnil
      rw [hnil] at he
      simp at he
  · obtain ⟨e, he, _⟩ := parseCsvText_err_of_bounds text mr mc hc
    rw [h] at he
    exact absurd he (by simp)

set_option maxRecDepth 4096
/-- C1 counterexample: a row of 201 columns exceeds the 200-column
cap, yet parseCsvText returns it without throwing, and the whole
extraction call succeeds on that input as well. -/
theorem c1_counterexample :
    parseCsvText colsOverTxt 250000 200 = Except.ok [List.replicate 201 "a"]
      ∧ (List.replicate 201 "a" : List String).length > 200
      ∧ (∃ res, parseHistoricalResultsByCountCsv colsOverTxt = Except.ok res) := by
  refine ⟨by decide, by decide, ⟨buildResult [List.replicate 201 "a"], ?_⟩⟩
  have h : parseCsvText colsOverTxt 250000 200 = Except.ok [List.replicate 201 "a"] := by
    decide
  unfold parseHistoricalResultsByCountCsv
  rw [h]

/-- C1 (amended): the call fails exactly when a cap on the raw lexed
shape is crossed: every raw (pre-trim) row may carry up to 201 fields
(at most 200 comma-driven pushes) and up to 250000 retained rows may
be newline-terminated; within those bounds the call returns the
trimmed retained rows and never throws, beyond them it throws one of
the two descriptive cap errors; the extraction call succeeds exactly
when the lexer does. -/
theorem c1_cap_characterization :
    ∀ (text : String) (mr mc : Nat),
      ((∀ r ∈ lexRaw text, r.length ≤ mc + 1)
          ∧ retainedCount (lexRaw text).dropLast ≤ mr →
        parseCsvText text mr mc = Except.ok (keptRows (lexRaw text)))
      ∧ (¬((∀ r ∈ lexRaw text, r.length ≤ mc + 1)
            ∧ retainedCount (lexRaw text).dropLast ≤ mr) →
          ∃ e, parseCsvText text mr mc = Except.error e
            ∧ (e = colsMsg mc ∨ e = rowsMsg mr))
      ∧ ((∃ res, parseHistoricalResultsByCountCsv text = Except.ok res)
          ↔ ∃ rows, parseCsvText text 250000 200 = Except.ok rows) := by
  intro text mr mc
  refine ⟨fun h => parseCsvText_ok_of_bounds text mr mc h.1 h.2,
    fun h => parseCsvText_err_of_bounds text mr mc h, ?_⟩
  unfold parseHistoricalResultsByCountCsv
  cases h : parseCsvText text 250000 200 <;> simp [h]

/-- C1 witness: the characterization applied to a two-field row. -/
theorem c1_witness : parseCsvText "x,y" 250000 200 = Except.ok [["x", "y"]] := by
  have h := ((c1_cap_characterization "x,y" 250000 200).1) (by decide)
  rw [h]
  decide

/-- C5 counterexample: lexing the six-character quoted input yields
the three-character field with a single interior quote, not the
four-character field the claim names. -/
theorem c5_counterexample :
    parseCsvText "\"a\"\"b\"" 250000 200 = Except.ok [["a\"b"]]
      ∧ ¬("a\"b" = "a\"b\"") := ⟨by decide, by decide⟩

/-- C5 (amended): a comma inside quotes does not split the field, and
a doubled quote inside a quoted field is one literal quote, so the
quoted a-comma-b input is one field and the doubled-quote input lexes
to the field consisting of a, one quote, b. -/
theorem c5_quoting :
    parseCsvText "\"a,b\"" 250000 200 = Except.ok [["a,b"]]
      ∧ parseCsvText "\"a\"\"b\"" 250000 200 = Except.ok [["a\"b"]] :=
  ⟨by decide, by decide⟩

/-- C6: every returned row is nonempty with no trailing
empty-or-whitespace fields, and the two inputs differing only in
trailing empty fields lex identically. -/
theorem c6_trailing_trim :
    (∀ (text : String) (mr mc : Nat) (rows : List (List String)),
        parseCsvText text mr mc = Except.ok rows →
        ∀ r ∈ rows, r ≠ [] ∧ dropTrailingWs r = r)
      ∧ parseCsvText "a,b,," 250000 200 = parseCsvText "a,b" 250000 200 := by
  constructor
  · intro text mr mc rows h r hr
    have h2 := parse_rows_shape text mr mc rows h r hr
    exact ⟨h2.2, h2.1⟩
  · decide

/-- C6 witness: the invariant evaluated on a concrete lex result. -/
theorem c6_witness :
    (["a", "b"] ≠ ([] : List String)) ∧ dropTrailingWs ["a", "b"] = ["a", "b"] :=
  c6_trailing_trim.1 "a,b,," 250000 200 [["a", "b"]] (by decide) ["a", "b"] (by decide)

theorem weatherScanAux_eq (grid : List (List String)) (hne : [] ∉ grid) :
    weatherScanAux grid
      = (grid.takeWhile (fun d => isNumericLike (cellAt d 0))).filterMap weatherRowRec := by
  induction grid with
  | nil => simp [weatherScanAux]
  | cons d rest ih =>
    have hd : ¬d.isEmpty := by
      intro h
      rw [List.isEmpty_iff] at h
      exact hne (by simp [h])
    have ih2 := ih (fun hmem => hne (List.mem_cons_of_mem _ hmem))
    by_cases hnum : isNumericLike (cellAt d 0)
    · rw [List.takeWhile_cons]
      simp only [hnum, List.filterMap_cons]
      unfold weatherScanAux
      simp only [hd, hnum, Bool.not_true, if_neg, if_false]
      unfold weatherRowRec
      cases hk : parseMaybeInt (cellAt d 0) with
      | none => simpa [hk] using ih2
      | some k =>
        by_cases hz : k = 0
        · simpa [hk, hz] using ih2
        · simpa [hk, hz] using ih2
    · rw [List.takeWhile_cons]
      simp only [hnum]
      unfold weatherScanAux
      simp [hd, hnum]

theorem peScanAux_eq (grid : List (List String)) (hne : [] ∉ grid) :
    peScanAux grid
      = (grid.takeWhile (fun d => isNumericLike (cellAt d 0))).filterMap peRowRec := by
  induction grid with
  | nil => simp [peScanAux]
  | cons d rest ih =>
    have hd : ¬d.isEmpty := by
      intro h
      rw [List.isEmpty_iff] at h
      exact hne (by simp [h])
    have ih2 := ih (fun hmem => hne (List.mem_cons_of_mem _ hmem))
    by_cases hnum : isNumericLike (cellAt d 0)
    · rw [List.takeWhile_cons]
      simp only [hnum, List.filterMap_cons]
      unfold peScanAux
      simp only [hd, hnum, Bool.not_true, if_neg, if_false]
      unfold peRowRec
      cases hk : parseMaybeInt (cellAt d 0) with
      | none => simpa [hk] using ih2
      | some k =>
        by_cases hz : k = 0
        · simpa [hk, hz] using ih2
        · simpa [hk, hz] using ih2
    · rw [List.takeWhile_cons]
      simp only [hnum]
      unfold peScanAux
      simp [hd, hnum]

theorem updPE_countIndex (yh : YearHeader) (r : PERecord) :
    (updPE yh r).CountIndex = r.CountIndex := rfl

theorem fillPE_nonzero (ci : Int) (yh : YearHeader) :
    ∀ pe : List PERecord, (∀ q ∈ pe, q.CountIndex ≠ 0) →
      ∀ p ∈ fillPEFromHeader ci yh pe, p.CountIndex ≠ 0 := by
  intro pe
  induction pe with
  | nil => intro _ p hp; simp [fillPEFromHeader] at hp
  | cons r rest ih =>
    intro hq p hp
    unfold fillPEFromHeader at hp
    by_cases hr : r.CountIndex = ci
    · rw [if_pos hr] at hp
      rcases List.mem_cons.mp hp with h | h
      · subst h
        rw [updPE_countIndex]
        exact hq r (by simp)
      · exact hq p (by simp [h])
    · rw [if_neg hr] at hp
      rcases List.mem_cons.mp hp with h | h
      · subst h
        exact hq p (by simp)
      · exact ih (fun q hmem => hq q (by simp [hmem])) p h

theorem speciesAux_pe_nonzero :
    ∀ (grid : List (List String)) (st : SpeciesScanState),
      (∀ p ∈ st.pe, p.CountIndex ≠ 0) →
      ∀ p ∈ (speciesAux grid st).pe, p.CountIndex ≠ 0 := by
  intro grid st
  induction grid, st using speciesAux.induct with
  | case1 st => exact fun h => h
  | case2 d rest st hd =>
    intro h
    unfold speciesAux
    simp only [hd, if_pos]
    exact h
  | case3 d rest st hd speciesRaw hdr hskip ih =>
    intro h
    unfold speciesAux
    simp only [Bool.not_eq_true] at hd
    simp only [hd, Bool.false_eq_true, if_false, hskip, if_pos]
    exact ih h
  | case4 d rest st hd speciesRaw hdr hskip hparse ih =>
    intro h
    unfold speciesAux
    simp only [Bool.not_eq_true] at hd
    simp only [hd, Bool.false_eq_true, if_false, hskip, Bool.false_eq_true, if_false, hparse]
    exact ih h
  | case5 d rest st hd speciesRaw hdr hskip yh hparse ci yr hyr hci st1 st2 species countVal ih =>
    intro h
    unfold speciesAux
    simp only [Bool.not_eq_true] at hd
    simp only [hd, Bool.false_eq_true, if_false, hskip, Bool.false_eq_true, if_false, hparse,
      hci, hyr]
    apply ih
    intro p hp
    refine fillPE_nonzero ci yh _ ?_ p hp
    intro q hq
    have hst1 : st1.pe = st.pe := by
      unfold st1
      split <;> rfl
    rw [hst1] at hq
    exact h q hq
  | case6 d rest st hd speciesRaw hdr hskip yh hparse hfalse ih =>
    intro h
    unfold speciesAux
    simp only [Bool.not_eq_true] at hd
    simp only [hd, Bool.false_eq_true, if_false, hskip, Bool.false_eq_true, if_false, hparse]
    rcases hci : yh.CountIndex with _ | ci
    · simpa [hci] using ih h
    · rcases hyr : yh.Year with _ | yr
      · simpa [hci, hyr] using ih h
      · exact (hfalse ci yr hci hyr).elim

theorem peOf_nonzero (text : String) (rows : List (List String))
    (hp : parseCsvText text 250000 200 = Except.ok rows) :
    ∀ p ∈ peOf rows, p.CountIndex ≠ 0 := by
  intro p hp2
  unfold peOf at hp2
  rcases hidx : rows.findIdx? (fun r => cellAt r 0 = "CountYear5") with _ | i
  · rw [hidx] at hp2; simp at hp2
  · rw [hidx] at hp2
    have hp3 : p ∈ peScanAux (rows.drop (i + 1)) := hp2
    have hgood : [] ∉ rows.drop (i + 1) := fun hmem =>
      (parse_rows_shape text 250000 200 rows hp [] (List.mem_of_mem_drop hmem)).2 rfl
    rw [peScanAux_eq _ hgood] at hp3
    obtain ⟨d, hd, hwr⟩ := List.mem_filterMap.mp hp3
    unfold peRowRec at hwr
    rcases hk : parseMaybeInt (cellAt d 0) with _ | k
    · rw [hk] at hwr; simp at hwr
    · rw [hk] at hwr
      by_cases hz : k = 0
      · simp [hz] at hwr
      · simp only [hz, if_false] at hwr
        have hw2 : p = mkPE k d := by simpa using hwr.symm
        subst hw2
        exact hz

/-- C8: every record of both sections carries a nonzero count index:
a data row whose first cell coerces to null or zero emits no record.
The record type makes the index non-nullable because the source only
ever builds records from a successfully parsed index. -/
theorem c8_countindex_nonzero :
    ∀ (text : String) (res : ExtractionResult),
      parseHistoricalResultsByCountCsv text = Except.ok res →
      (∀ w ∈ res.weatherRaw, w.CountIndex ≠ 0)
        ∧ (∀ p ∈ res.participantsEffort, p.CountIndex ≠ 0) := by
  intro text res h
  unfold parseHistoricalResultsByCountCsv at h
  cases hp : parseCsvText text 250000 200 with
  | error e => rw [hp] at h; exact absurd h (by simp)
  | ok rows =>
    rw [hp] at h
    have hres : res = buildResult rows := (Except.ok.inj h).symm
    subst hres
    constructor
    · show ∀ w ∈ weatherOf rows, w.CountIndex ≠ 0
      intro w hw
      unfold weatherOf at hw
      rcases hidx : rows.findIdx? weatherSentinel with _ | i
      · rw [hidx] at hw; simp at hw
      · rw [hidx] at hw
        have hw3 : w ∈ weatherScanAux (rows.drop (i + 1)) := hw
        have hgood : [] ∉ rows.drop (i + 1) := fun hmem =>
          (parse_rows_shape text 250000 200 rows hp [] (List.mem_of_mem_drop hmem)).2 rfl
        rw [weatherScanAux_eq _ hgood] at hw3
        obtain ⟨d, hd, hwr⟩ := List.mem_filterMap.mp hw3
        unfold weatherRowRec at hwr
        rcases hk : parseMaybeInt (cellAt d 0) with _ | k
        · rw [hk] at hwr; simp at hwr
        · rw [hk] at hwr
          by_cases hz : k = 0
          · simp [hz] at hwr
          · simp only [hz, if_false] at hwr
            have hw2 : w = mkWeather k d := by simpa using hwr.symm
            subst hw2
            exact hz
    · show ∀ p ∈ (speciesOut rows).pe, p.CountIndex ≠ 0
      have hinit : ∀ p ∈ (speciesStateInit rows).pe, p.CountIndex ≠ 0 :=
        peOf_nonzero text rows hp
      unfold speciesOut
      rcases hidx : rows.findIdx? speciesSentinel with _ | i
      · simpa using hinit
      · simpa using speciesAux_pe_nonzero (rows.drop (i + 1)) (speciesStateInit rows) hinit

/-- C8 witness: the invariant on a concrete extraction whose data
rows carry indices one, zero (skipped) and two. -/
theorem c8_witness :
    (∀ w ∈ (buildResult [["CountYear3", "lowtemp"], ["1", "5"], ["0", "6"], ["2", "7"]]).weatherRaw,
        w.CountIndex ≠ 0)
      ∧ (∀ p ∈ (buildResult [["CountYear3", "lowtemp"], ["1", "5"], ["0", "6"], ["2", "7"]]).participantsEffort,
          p.CountIndex ≠ 0) :=
  c8_countindex_nonzero "CountYear3,lowtemp\n1,5\n0,6\n2,7" _ (by decide)

/-- C4: the composite-header parser yields exactly the expected record
on the five-line example cell, and returns no match whenever the
leading year-and-bracketed-index pattern fails on the first line. -/
theorem c4_year_header_cell :
    parseYearHeaderCell
        "1987[3]\nCount Date: 12/27/1987\n# Participants: 42\n# Species Reported: 87\nTotal Hrs.: 6.5"
      = some { Year := some 1987, CountIndex := some 3, CountDate := some "12/27/1987",
               NumParticipants := some 42, NumSpeciesReported := some 87,
               TotalHrs := some { num := 65, den := 10 } }
    ∧ (JsRat.toRat { num := 65, den := 10 }) = (13 : Rat) / 2
    ∧ ∀ cell : String,
        matchYearIdx ((splitStr (normalizeNewlines cell) (fun c => c = '\n')).headD "").data = none →
        parseYearHeaderCell cell = none := by
  refine ⟨by decide, by norm_num [JsRat.toRat], ?_⟩
  intro cell h
  simp only [parseYearHeaderCell]
  rw [h]

/-- C4 witness: the no-match direction on a concrete cell. -/
theorem c4_witness : parseYearHeaderCell "Species name" = none :=
  c4_year_header_cell.2.2 "Species name" (by decide)

set_option maxHeartbeats 1000000 in
theorem compilerCellStep_countId (r : List String) (ci : CountInfo) (j : Nat) :
    (compilerCellStep r ci j).CountId = ci.CountId := by
  simp only [compilerCellStep]
  split
  · rfl
  · split
    · split
      · split <;> rfl
      · rfl
    · split
      · split
        · split <;> rfl
        · rfl
      · rfl

set_option maxHeartbeats 1000000 in
theorem compilerRowStep_countId (rows : List (List String)) (ci : CountInfo) (i : Nat) :
    (compilerRowStep rows ci i).CountId = ci.CountId := by
  simp only [compilerRowStep]
  split
  · rfl
  · have hcells : ∀ (l : List Nat) (ci2 : CountInfo),
        (l.foldl (fun ci2 j => compilerCellStep (rows.getD i []) ci2 j) ci2).CountId
          = ci2.CountId := by
      intro l
      induction l with
      | nil => intro ci2; rfl
      | cons a t ih =>
        intro ci2
        simp only [List.foldl_cons]
        rw [ih, compilerCellStep_countId]
    rw [hcells]
    split
    · split <;> split <;> split <;> split <;> rfl
    · rfl

theorem compilerScan_countId (rows : List (List String)) (ci : CountInfo) :
    (compilerScan rows ci).CountId = ci.CountId := by
  unfold compilerScan
  have h : ∀ (l : List Nat) (ci2 : CountInfo),
      (l.foldl (fun ci2 i => compilerRowStep rows ci2 i) ci2).CountId = ci2.CountId := by
    intro l
    induction l with
    | nil => intro ci2; rfl
    | cons a t ih =>
      intro ci2
      simp only [List.foldl_cons]
      rw [ih, compilerRowStep_countId]
  exact h _ ci

theorem circleScan_countId (rows : List (List String)) (ci : CountInfo) :
    (circleScan rows ci).CountId = ci.CountId := by
  unfold circleScan
  split <;> rfl

/-- C10: the CountId of the returned countInfo is always null: the
source initializes it to null and no code path assigns it. -/
theorem c10_countId_null :
    ∀ (text : String) (res : ExtractionResult),
      parseHistoricalResultsByCountCsv text = Except.ok res →
      res.countInfo.CountId = none := by
  intro text res h
  unfold parseHistoricalResultsByCountCsv at h
  cases hp : parseCsvText text 250000 200 with
  | error e => rw [hp] at h; exact absurd h (by simp)
  | ok rows =>
    rw [hp] at h
    have hres : res = buildResult rows := (Except.ok.inj h).symm
    subst hres
    show (circleScan rows (compilerScan rows initCountInfo)).CountId = none
    rw [circleScan_countId, compilerScan_countId]
    rfl

/-- C10 witness: evaluated on a concrete input carrying circle and
compiler metadata. -/
theorem c10_witness :
    (buildResult [["CircleName", "Abbrev"], ["Town", "TWN", "41.5/-71.3"]]).countInfo.CountId
      = none :=
  c10_countId_null "CircleName,Abbrev\nTown,TWN,41.5/-71.3" _ (by decide)

theorem dedupFirstGo_mem : ∀ (l seen : List Int) (a : Int),
    a ∈ dedupFirstGo seen l ↔ (a ∈ l ∧ a ∉ seen) := by
  intro l
  induction l with
  | nil => intro seen a; simp [dedupFirstGo]
  | cons x xs ih =>
    intro seen a
    unfold dedupFirstGo
    by_cases hx : seen.contains x
    · rw [if_pos hx]
      rw [ih]
      constructor
      · rintro ⟨h1, h2⟩
        exact ⟨List.mem_cons_of_mem _ h1, h2⟩
      · rintro ⟨h1, h2⟩
        rcases List.mem_cons.mp h1 with h | h
        · subst h
          exact absurd (List.mem_of_elem_eq_true hx) h2
        · exact ⟨h, h2⟩
    · rw [if_neg hx]
      constructor
      · intro hmem
        rcases List.mem_cons.mp hmem with h | h
        · subst h
          refine ⟨by simp, ?_⟩
          intro hcon
          exact hx (List.elem_eq_true_of_mem hcon)
        · have := (ih (x :: seen) a).mp h
          exact ⟨List.mem_cons_of_mem _ this.1, fun hc => this.2 (List.mem_cons_of_mem _ hc)⟩
      · rintro ⟨h1, h2⟩
        rcases List.mem_cons.mp h1 with h | h
        · subst h
          simp
        · by_cases hax : a = x
          · subst hax
            simp
          · refine List.mem_cons_of_mem _ ((ih (x :: seen) a).mpr ⟨h, ?_⟩)
            intro hc
            rcases List.mem_cons.mp hc with h3 | h3
            · exact hax h3
            · exact h2 h3

theorem dedupFirstGo_nodup : ∀ (l seen : List Int), (dedupFirstGo seen l).Nodup := by
  intro l
  induction l with
  | nil => intro seen; simp [dedupFirstGo]
  | cons x xs ih =>
    intro seen
    unfold dedupFirstGo
    by_cases hx : seen.contains x
    · rw [if_pos hx]
      exact ih seen
    · rw [if_neg hx]
      refine List.nodup_cons.mpr ⟨?_, ih (x :: seen)⟩
      intro hmem
      exact ((dedupFirstGo_mem xs (x :: seen) x).mp hmem).2 (by simp)

theorem dedupFirst_mem (l : List Int) (a : Int) : a ∈ dedupFirst l ↔ a ∈ l := by
  unfold dedupFirst
  rw [dedupFirstGo_mem]
  simp

theorem dedupFirst_nodup (l : List Int) : (dedupFirst l).Nodup :=
  dedupFirstGo_nodup l []

theorem uniqueSorted_spec (meta : List MetaRecord) :
    (uniqueSortedYearsFromMeta meta).Sorted (fun a b => a < b)
      ∧ ∀ y : Int, y ∈ uniqueSortedYearsFromMeta meta ↔ ∃ m ∈ meta, m.Year = y := by
  constructor
  · have hs : (uniqueSortedYearsFromMeta meta).Sorted (fun a b => a ≤ b) :=
      List.sorted_insertionSort _ _
    have hn : (uniqueSortedYearsFromMeta meta).Nodup := by
      unfold uniqueSortedYearsFromMeta
      rw [(List.perm_insertionSort _ _).nodup_iff]
      exact dedupFirst_nodup _
    exact List.Sorted.lt_of_le hs hn
  · intro y
    unfold uniqueSortedYearsFromMeta
    rw [List.mem_insertionSort, dedupFirst_mem, List.mem_map]

/-- C7: the years list is strictly ascending and contains exactly the
years of the species-section metadata records; on the example with
species headers for 1999, 2000 and 2002 it is that exact list, with
no gap filling. -/
theorem c7_years_from_species_meta :
    (∀ (text : String) (res : ExtractionResult),
        parseHistoricalResultsByCountCsv text = Except.ok res →
        res.years.Sorted (fun a b => a < b)
          ∧ ∀ y : Int, y ∈ res.years ↔ ∃ m ∈ res.meta, m.Year = y)
      ∧ (parseHistoricalResultsByCountCsv
            "COM_NAME,CountYear\nCardinal,1999[1],5\nCardinal,2000[2],3\nJay,2002[4],1\n").toOption.map
          (fun res => res.years) = some [1999, 2000, 2002] := by
  constructor
  · intro text res h
    unfold parseHistoricalResultsByCountCsv at h
    cases hp : parseCsvText text 250000 200 with
    | error e => rw [hp] at h; exact absurd h (by simp)
    | ok rows =>
      rw [hp] at h
      have hres : res = buildResult rows := (Except.ok.inj h).symm
      subst hres
      exact uniqueSorted_spec (speciesOut rows).meta
  · decide

/-- C7 witness: the general part evaluated on a one-species input. -/
theorem c7_witness :
    (buildResult [["COM_NAME", "CountYear"], ["Cardinal", "1999[1]", "5"]]).years.Sorted
      (fun a b => a < b) :=
  (c7_years_from_species_meta.1 "COM_NAME,CountYear\nCardinal,1999[1],5" _ (by decide)).1

theorem updPE_eq_spec (yh : YearHeader) (r : PERecord) : updPE yh r = updPESpec yh r := by
  unfold updPE updPESpec
  simp only [PERecord.mk.injEq, true_and, and_true]
  refine ⟨?_, ?_, ?_, ?_⟩
  · by_cases h1 : strTruthy r.CountDate <;> by_cases h2 : strTruthy yh.CountDate <;>
      simp [h1, h2]
  · by_cases h1 : r.NumParticipants = none
    · cases h2 : yh.NumParticipants <;> simp [h1, h2]
    · simp [h1]
  · by_cases h1 : r.NumHours = none
    · cases h2 : yh.TotalHrs <;> simp [h1, h2]
    · simp [h1]
  · by_cases h1 : r.NumSpeciesReported = none
    · cases h2 : yh.NumSpeciesReported <;> simp [h1, h2]
    · simp [h1]

/-- C9: during the species scan, the reconciliation step leaves every
record other than the first index match untouched, leaves the list
unchanged when no record matches, and on the matching record fills
each of the four fields only when that field is currently null (for
the date: null or empty), never overwriting a present value. -/
theorem c9_fill_only_null :
    ∀ (pe : List PERecord) (ci : Int) (yh : YearHeader),
      ((∀ r ∈ pe, r.CountIndex ≠ ci) → fillPEFromHeader ci yh pe = pe)
      ∧ (∀ (l : List PERecord) (r : PERecord) (rest : List PERecord),
          pe = l ++ r :: rest → (∀ x ∈ l, x.CountIndex ≠ ci) → r.CountIndex = ci →
          fillPEFromHeader ci yh pe = l ++ updPESpec yh r :: rest) := by
  intro pe ci yh
  have hsplit : ∀ (l : List PERecord) (r : PERecord) (rest : List PERecord),
      (∀ x ∈ l, x.CountIndex ≠ ci) → r.CountIndex = ci →
      fillPEFromHeader ci yh (l ++ r :: rest) = l ++ updPESpec yh r :: rest := by
    intro l
    induction l with
    | nil =>
      intro r rest hskip hr
      rw [List.nil_append, List.nil_append]
      unfold fillPEFromHeader
      rw [if_pos hr, updPE_eq_spec]
    | cons a t ih =>
      intro r rest hskip hr
      rw [List.cons_append, List.cons_append]
      unfold fillPEFromHeader
      rw [if_neg (hskip a (by simp))]
      rw [ih r rest (fun x hx => hskip x (by simp [hx])) hr]
  constructor
  · intro hno
    induction pe with
    | nil => rfl
    | cons a t ih =>
      unfold fillPEFromHeader
      rw [if_neg (hno a (by simp))]
      rw [ih (fun x hx => hno x (by simp [hx]))]
  · intro l r rest hpe hskip hr
    subst hpe
    exact hsplit l r rest hskip hr

/-- C9 witness: a matched record with a present participant count
keeps it, and fills only its null fields from the header. -/
theorem c9_witness :
    fillPEFromHeader 3
        { Year := some 1987, CountIndex := some 3, CountDate := some "12/27/1987",
          NumParticipants := some 9, NumSpeciesReported := some 87,
          TotalHrs := some { num := 65, den := 10 } }
        [{ CountIndex := 3, CountDate := none, Year := none, NumParticipants := some 42,
           NumHours := none, NumSpeciesReported := none }]
      = [updPESpec
          { Year := some 1987, CountIndex := some 3, CountDate := some "12/27/1987",
            NumParticipants := some 9, NumSpeciesReported := some 87,
            TotalHrs := some { num := 65, den := 10 } }
          { CountIndex := 3, CountDate := none, Year := none, NumParticipants := some 42,
            NumHours := none, NumSpeciesReported := none }] :=
  (c9_fill_only_null _ 3 _).2 [] _ [] rfl (by simp) (by decide)

theorem speciesAux_meta_inv :
    ∀ (grid : List (List String)) (st : SpeciesScanState),
      ((∀ x : Int, x ∈ st.metaSeen ↔ x ∈ st.meta.map (fun m => m.CountIndex))
        ∧ (st.meta.map (fun m => m.CountIndex)).Nodup) →
      ((∀ x : Int, x ∈ (speciesAux grid st).metaSeen
          ↔ x ∈ (speciesAux grid st).meta.map (fun m => m.CountIndex))
        ∧ ((speciesAux grid st).meta.map (fun m => m.CountIndex)).Nodup) := by
  intro grid st
  induction grid, st using speciesAux.induct with
  | case1 st => exact fun h => h
  | case2 d rest st hd =>
    intro h
    unfold speciesAux
    simp only [hd, if_pos]
    exact h
  | case3 d rest st hd speciesRaw hdr hskip ih =>
    intro h
    unfold speciesAux
    simp only [Bool.not_eq_true] at hd
    simp only [hd, Bool.false_eq_true, if_false, hskip, if_pos]
    exact ih h
  | case4 d rest st hd speciesRaw hdr hskip hparse ih =>
    intro h
    unfold speciesAux
    simp only [Bool.not_eq_true] at hd
    simp only [hd, Bool.false_eq_true, if_false, hskip, Bool.false_eq_true, if_false, hparse]
    exact ih h
  | case5 d rest st hd speciesRaw hdr hskip yh hparse ci yr hyr hci st1 st2 species countVal ih =>
    intro h
    unfold speciesAux
    simp only [Bool.not_eq_true] at hd
    simp only [hd, Bool.false_eq_true, if_false, hskip, Bool.false_eq_true, if_false, hparse,
      hci, hyr]
    apply ih
    by_cases hseen : st.metaSeen.contains ci = true
    · have hst1 : st1 = st := by
        unfold st1
        rw [if_pos hseen]
      constructor
      · intro x
        show x ∈ st1.metaSeen ↔ x ∈ st1.meta.map (fun m => m.CountIndex)
        rw [hst1]
        exact h.1 x
      · show (st1.meta.map (fun m => m.CountIndex)).Nodup
        rw [hst1]
        exact h.2
    · have hci2 : ci ∉ st.meta.map (fun m => m.CountIndex) := by
        intro hmem
        exact hseen (List.elem_eq_true_of_mem ((h.1 ci).mpr hmem))
      have hst1m : st1.meta = st.meta ++
          [{ CountIndex := ci, Year := yr,
             CountDate :=
               match yh.CountDate with
               | some s => if s = "" then none else some s
               | none => none }] := by
        unfold st1
        rw [if_neg hseen]
      have hst1s : st1.metaSeen = ci :: st.metaSeen := by
        unfold st1
        rw [if_neg hseen]
      constructor
      · intro x
        show x ∈ st1.metaSeen ↔ x ∈ st1.meta.map (fun m => m.CountIndex)
        rw [hst1m, hst1s]
        simp only [List.map_append, List.map_cons, List.map_nil, List.mem_append,
          List.mem_cons, List.mem_singleton, List.not_mem_nil, or_false]
        rw [h.1 x]
        constructor
        · rintro (hx | hx)
          · exact Or.inr hx
          · exact Or.inl hx
        · rintro (hx | hx)
          · exact Or.inr hx
          · exact Or.inl hx
      · show (st1.meta.map (fun m => m.CountIndex)).Nodup
        rw [hst1m]
        simp only [List.map_append, List.map_cons, List.map_nil]
        rw [List.nodup_append]
        refine ⟨h.2, List.nodup_singleton _, ?_⟩
        intro a ha hb
        simp only [List.mem_singleton] at hb
        subst hb
        exact hci2 ha
  | case6 d rest st hd speciesRaw hdr hskip yh hparse hfalse ih =>
    intro h
    unfold speciesAux
    simp only [Bool.not_eq_true] at hd
    simp only [hd, Bool.false_eq_true, if_false, hskip, Bool.false_eq_true, if_false, hparse]
    rcases hci : yh.CountIndex with _ | ci
    · simpa [hci] using ih h
    · rcases hyr : yh.Year with _ | yr
      · simpa [hci, hyr] using ih h
      · exact (hfalse ci yr hci hyr).elim

theorem parse_meta_nodup (text : String) (res : ExtractionResult)
    (h : parseHistoricalResultsByCountCsv text = Except.ok res) :
    (res.meta.map (fun m => m.CountIndex)).Nodup := by
  unfold parseHistoricalResultsByCountCsv at h
  cases hp : parseCsvText text 250000 200 with
  | error e => rw [hp] at h; exact absurd h (by simp)
  | ok rows =>
    rw [hp] at h
    have hres : res = buildResult rows := (Except.ok.inj h).symm
    subst hres
    show ((speciesOut rows).meta.map (fun m => m.CountIndex)).Nodup
    unfold speciesOut
    rcases hidx : rows.findIdx? speciesSentinel with _ | i
    · simp [speciesStateInit]
    · exact (speciesAux_meta_inv (rows.drop (i + 1)) (speciesStateInit rows)
        ⟨by simp [speciesStateInit], by simp [speciesStateInit]⟩).2

theorem lookupLast_eq_find :
    ∀ (l : List (Int × Int)), (l.map Prod.fst).Nodup → ∀ k : Int,
      lookupLastPair l k = (l.find? (fun p => p.1 = k)).map (fun p => p.2) := by
  intro l
  induction l with
  | nil => intro _ k; rfl
  | cons a t ih =>
    intro hn k
    have hn2 : (t.map Prod.fst).Nodup := (List.nodup_cons.mp hn).2
    have hna : a.1 ∉ t.map Prod.fst := (List.nodup_cons.mp hn).1
    unfold lookupLastPair
    rw [List.reverse_cons, List.find?_append]
    by_cases hk : a.1 = k
    · have hnone : t.reverse.find? (fun p => decide (p.1 = k)) = none := by
        rw [List.find?_eq_none]
        intro x hx
        simp only [decide_eq_true_eq]
        intro hxk
        exact hna (by
          rw [← hk] at hxk
          rw [← hxk]
          exact List.mem_map_of_mem Prod.fst (List.mem_reverse.mp hx))
      rw [hnone]
      simp [hk]
    · simp only [List.find?, hk, decide_eq_true_eq, if_neg]
      simp [hk]
      exact ih hn2 k

theorem yearFromCountDateString_empty : yearFromCountDateString "" = none := rfl

theorem resolve_eq_spec (pe : List PERecord) (meta : List MetaRecord)
    (hnodup : (meta.map (fun m => m.CountIndex)).Nodup) :
    resolvePEYears pe meta = pe.map (fun r => { r with Year := specPriorityYear r meta }) := by
  unfold resolvePEYears
  apply List.map_congr_left
  intro r _
  have hkeys : ((meta.map (fun m => (m.CountIndex, m.Year))).map Prod.fst).Nodup := by
    rw [List.map_map]
    exact hnodup
  have hlook : lookupLastPair (meta.map (fun m => (m.CountIndex, m.Year))) r.CountIndex
      = (meta.find? (fun m => m.CountIndex = r.CountIndex)).map (fun m => m.Year) := by
    rw [lookupLast_eq_find _ hkeys, List.find?_map, Option.map_map]
    rfl
  rw [hlook]
  unfold specPriorityYear
  cases hf : meta.find? (fun m => m.CountIndex = r.CountIndex) with
  | some m => rfl
  | none =>
    rcases hcd : r.CountDate with _ | s
    · rfl
    · by_cases hs : s = ""
      · subst hs
        simp [yearFromCountDateString_empty]
      · simp [hs]

/-- C2: for extraction output, the year resolution applied by the
host equals the claim's three-step priority: metadata year by
matching index, else the first year token of the record's own date
string, else the value already present. -/
theorem c2_year_resolution :
    ∀ (text : String) (res : ExtractionResult),
      parseHistoricalResultsByCountCsv text = Except.ok res →
      resolvePEYears res.participantsEffort res.meta
        = res.participantsEffort.map (fun r => { r with Year := specPriorityYear r res.meta }) := by
  intro text res h
  exact resolve_eq_spec res.participantsEffort res.meta (parse_meta_nodup text res h)

/-- C2 witness: the resolution evaluated on a concrete extraction. -/
theorem c2_witness :
    resolvePEYears
        (buildResult [["CountYear5", "d"], ["3", "12/27/1987", "42", "6.5", "87"]]).participantsEffort
        (buildResult [["CountYear5", "d"], ["3", "12/27/1987", "42", "6.5", "87"]]).meta
      = (buildResult [["CountYear5", "d"], ["3", "12/27/1987", "42", "6.5", "87"]]).participantsEffort.map
          (fun r => { r with
            Year := specPriorityYear r
              (buildResult [["CountYear5", "d"], ["3", "12/27/1987", "42", "6.5", "87"]]).meta }) :=
  c2_year_resolution "CountYear5,d\n3,12/27/1987,42,6.5,87" _ (by decide)

/-- C3 (amended): the lexer never outputs an empty row (blank input
lines are dropped during lexing), so on lexer output the data-row
loops of the weather and participation-effort sections collect
exactly the maximal run of rows with a numeric-looking first cell
after the sentinel; the empty-row break of the scanner therefore
never fires, and a numeric-leading row that follows a blank input
line is still collected. -/
theorem c3_section_scan :
    (∀ (text : String) (mr mc : Nat) (rows : List (List String)),
        parseCsvText text mr mc = Except.ok rows → [] ∉ rows)
      ∧ (∀ grid : List (List String), [] ∉ grid →
          weatherScanAux grid
              = (grid.takeWhile (fun d => isNumericLike (cellAt d 0))).filterMap weatherRowRec
            ∧ peScanAux grid
              = (grid.takeWhile (fun d => isNumericLike (cellAt d 0))).filterMap peRowRec) := by
  constructor
  · intro text mr mc rows h hmem
    exact (parse_rows_shape text mr mc rows h [] hmem).2 rfl
  · intro grid hne
    exact ⟨weatherScanAux_eq grid hne, peScanAux_eq grid hne⟩

/-- C3 counterexample: with a blank line between two weather data
rows the second, numeric-leading row is still collected, against the
claim that a blank line terminates the section. -/
theorem c3_counterexample :
    (parseHistoricalResultsByCountCsv
          "CountYear3,LowTemp F\n1,10,20,a,b,c,d,e,f\n\n2,11,21,a,b,c,d,e,f\n").toOption.map
        (fun res => res.weatherRaw.map (fun w => w.CountIndex)) = some [1, 2] := by
  decide

/-- C3 witness: the scan characterization evaluated on a small grid. -/
theorem c3_witness :
    weatherScanAux [["2", "5"], ["x"]]
      = (([["2", "5"], ["x"]] : List (List String)).takeWhile
          (fun d => isNumericLike (cellAt d 0))).filterMap weatherRowRec :=
  ((c3_section_scan.2 [["2", "5"], ["x"]]) (by decide)).1

end CbcHistoric

